import Mathlib

/-!
Verification of the live frame relay / MJPEG distribution subsystem of the
roast-bot backend (src/backend/main.py). The shallow embedding below follows
the Python source: the module-level dictionaries `active_streams` and
`stream_frames` become association lists inside `SysState`, the ingest
endpoints `receive_stream_frame` and `upload_frame` become pure state
transformers, and the generator `stream_frames_generator` is modelled both as
an (untimed) emission function and as a timed loop with explicit lock and
sleep actions. Wall-clock time is modelled by rationals. External libraries
(Python's `base64` module and PIL's `Image.open`) are embedded at the
interface granularity the handlers use.
-/

/-- Raw byte sequences (Python `bytes`), one `Nat` per byte. -/
abbrev Bytes := List Nat

/-! ### Python `base64.b64decode` (default `validate=False`) -/

/-- Value of a standard base64 alphabet character, `none` for anything else
(including the padding character). -/
def b64CharVal (c : Char) : Option Nat :=
  if 65 ≤ c.toNat ∧ c.toNat ≤ 90 then some (c.toNat - 65)
  else if 97 ≤ c.toNat ∧ c.toNat ≤ 122 then some (c.toNat - 97 + 26)
  else if 48 ≤ c.toNat ∧ c.toNat ≤ 57 then some (c.toNat - 48 + 52)
  else if c = '+' then some 62
  else if c = '/' then some 63
  else none

/-- With `validate=False`, `b64decode` discards every character that is
neither in the alphabet nor padding before the padding check. -/
def b64Filter (s : String) : List Char :=
  s.toList.filter (fun c => (b64CharVal c).isSome || c = '=')

/-- Decode successive groups of four base64 characters; padding (`=`) is
legal only at the end of the final group. Returns `none` on a malformed
stream, like `binascii.Error` in Python. -/
def b64DecodeGroups : List Char → Option Bytes
  | [] => some []
  | a :: b :: c :: d :: rest =>
    match b64CharVal a, b64CharVal b with
    | some va, some vb =>
      if c = '=' then
        if d = '=' ∧ rest = [] then some [va * 4 + vb / 16]
        else none
      else
        match b64CharVal c with
        | some vc =>
          if d = '=' then
            if rest = [] then some [va * 4 + vb / 16, (vb % 16) * 16 + vc / 4]
            else none
          else
            match b64CharVal d with
            | some vd =>
              (b64DecodeGroups rest).map
                (fun t => (va * 4 + vb / 16) :: ((vb % 16) * 16 + vc / 4) ::
                  ((vc % 4) * 64 + vd) :: t)
            | none => none
        | none => none
    | _, _ => none
  | _ => none

/-- Python `base64.b64decode` on a string: discard foreign characters, then
require a multiple-of-four length (otherwise `binascii.Error`, modelled as
`none`) and decode. The empty string decodes to the empty byte sequence. -/
def b64decode (s : String) : Option Bytes :=
  let cs := b64Filter s
  if cs.length % 4 = 0 then b64DecodeGroups cs else none

/-! ### PIL `Image.open` at the interface -/

/-- A decoded pixel image; the handlers only pass it on to analysis, so the
embedding keeps the originating bytes. -/
structure PixImage where
  bytes : Bytes
deriving DecidableEq, Repr

/-- JPEG SOI marker bytes. -/
def JPEG_MAGIC : Bytes := [255, 216, 255]

/-- PNG signature prefix bytes. -/
def PNG_MAGIC : Bytes := [137, 80, 78, 71]

/-- Models PIL `Image.open` on an in-memory byte buffer: it succeeds exactly
when the bytes begin with a recognized image signature, and raises (here
`none`) on anything else — in particular on empty or plain-text bytes.
The library itself is external to the repository; only this
succeeds-or-raises interface is used by `src/backend/main.py`. -/
def pilOpen (bs : Bytes) : Option PixImage :=
  if JPEG_MAGIC.isPrefixOf bs || PNG_MAGIC.isPrefixOf bs then some ⟨bs⟩
  else none

/-! ### Analysis collaborator (`deepface_analyze`, main.py lines 130-148) -/

/-- The placeholder analysis record returned by `deepface_analyze`. -/
structure AnalysisResult where
  age : Nat
  emotion : List (String × ℚ)
  gender : String
  race : List (String × ℚ)
  timestamp : ℚ
deriving DecidableEq, Repr

/-- `deepface_analyze`: placeholder returning a fixed record stamped with the
current time. -/
def deepface_analyze (_frame : PixImage) (now : ℚ) : AnalysisResult :=
  { age := 30
    emotion := [("happy", 8/10), ("neutral", 2/10)]
    gender := "Male"
    race := [("white", 3/4), ("latino", 1/4)]
    timestamp := now }

/-! ### Shared state: `active_streams`, `stream_frames` (main.py lines 117-118) -/

/-- Value stored in `active_streams[stream_id]`. -/
structure StreamData where
  last_frame : ℚ
  analysis : AnalysisResult
deriving DecidableEq, Repr

/-- Python dict lookup on an association list. -/
def dlookup {β : Type} (m : List (String × β)) (k : String) : Option β :=
  (m.find? (fun p => p.1 == k)).map (fun p => p.2)

/-- Python dict assignment `m[k] = v`: the mapping afterwards sends `k` to
`v` and every other key to its previous value. -/
def dinsert {β : Type} (m : List (String × β)) (k : String) (v : β) :
    List (String × β) :=
  (k, v) :: m.filter (fun p => p.1 != k)

/-- The process-wide mutable state shared by ingest and viewers. -/
structure SysState where
  active_streams : List (String × StreamData)
  stream_frames : List (String × List Bytes)
deriving DecidableEq, Repr

/-- Both dictionaries start empty (main.py lines 117-118). -/
def initState : SysState := { active_streams := [], stream_frames := [] }

/-- Capacity of each per-stream ring: `deque(maxlen=30)`. -/
def STREAM_RING_CAP : Nat := 30

/-- `deque(maxlen=30).append`: append on the right, discarding from the left
whatever exceeds the capacity. -/
def ring_append (r : List Bytes) (f : Bytes) : List Bytes :=
  let r2 := r ++ [f]
  if STREAM_RING_CAP < r2.length then r2.drop (r2.length - STREAM_RING_CAP)
  else r2

/-- The frame ring of a stream; absent streams read as the empty ring. -/
def ringOf (st : SysState) (id : String) : List Bytes :=
  (dlookup st.stream_frames id).getD []

/-- The `with stream_lock:` publish block shared by both ingest endpoints
(main.py lines 1107-1116 and 1244-1253): store `{last_frame, analysis}` in
`active_streams`, create the ring if missing, append the raw bytes. -/
def publish (st : SysState) (id : String) (bs : Bytes) (a : AnalysisResult)
    (now : ℚ) : SysState :=
  { active_streams :=
      dinsert st.active_streams id { last_frame := now, analysis := a }
    stream_frames :=
      dinsert st.stream_frames id (ring_append (ringOf st id) bs) }

/-! ### Ingest endpoints -/

/-- Outcome of `POST /api/raspi/stream-frame`. -/
inductive IngestResult
  | received
  | badRequest (detail : String)
deriving DecidableEq, Repr

/-- `receive_stream_frame` (main.py lines 1077-1127): base64-decode the
payload; on failure raise HTTP 400. Otherwise try to open the image; on
failure only print (state untouched). On success run analysis and publish.
Either way the successful branch answers `{"status": "received"}`. -/
def receive_stream_frame (st : SysState) (stream_id : String) (frame : String)
    (now : ℚ) : IngestResult × SysState :=
  match b64decode frame with
  | none => (IngestResult.badRequest "Invalid image data", st)
  | some img_bytes =>
    match pilOpen img_bytes with
    | none => (IngestResult.received, st)
    | some img =>
      (IngestResult.received,
        publish st stream_id img_bytes (deepface_analyze img now) now)

/-- Outcome of `POST /api/raspi/upload_frame`. -/
inductive UploadResult
  | receivedSuccess
  | receivedFailed (error : String)
deriving DecidableEq, Repr

/-- `upload_frame` (main.py lines 1219-1265): the multipart bytes are already
read; try to open the image. On failure print and answer
`{"status": "received", "analysis": "failed", ...}` with the state untouched;
on success publish and answer `{"status": "received", "analysis": "success"}`. -/
def upload_frame (st : SysState) (stream_id : String) (img_bytes : Bytes)
    (now : ℚ) : UploadResult × SysState :=
  match pilOpen img_bytes with
  | none => (UploadResult.receivedFailed "cannot identify image file", st)
  | some img =>
    (UploadResult.receivedSuccess,
      publish st stream_id img_bytes (deepface_analyze img now) now)

/-! ### Listing and analysis read endpoints -/

/-- `list_active_streams` (main.py lines 1130-1150): keep the streams whose
last frame is younger than 30 seconds, reporting `last_frame` and
`active_since = now - last_frame`. -/
def list_active_streams (st : SysState) (now : ℚ) : List (String × ℚ × ℚ) :=
  st.active_streams.filterMap
    (fun p =>
      if now - p.2.last_frame < 30 then
        some (p.1, p.2.last_frame, now - p.2.last_frame)
      else none)

/-- Outcome of `GET /api/stream/{stream_id}` (the first-registered, hence
reachable, handler `get_stream_feed`). -/
inductive FeedResult
  | notFound
  | analysis (a : AnalysisResult)
deriving DecidableEq, Repr

/-- `get_stream_feed` (main.py lines 1153-1171): 404 when the id is not in
`active_streams`, otherwise the stored analysis. No liveness check. -/
def get_stream_feed (st : SysState) (id : String) : FeedResult :=
  match dlookup st.active_streams id with
  | none => FeedResult.notFound
  | some d => FeedResult.analysis d.analysis

/-- `latestFrame` as read by the generator (`stream_frames[stream_id][-1]`). -/
def latestFrame (st : SysState) (id : String) : Option Bytes :=
  (ringOf st id).getLast?

/-! ### MJPEG generator `stream_frames_generator` (main.py lines 152-193) -/

/-- The synthetic placeholder image built on viewer connect:
`np.ones((480, 640, 3)) * 255`, a solid fill. Only fill images ever arise. -/
structure RGBImage where
  height : Nat
  width : Nat
  fillR : Nat
  fillG : Nat
  fillB : Nat
deriving DecidableEq, Repr

/-- `blank_frame` (main.py line 167): solid white, 480 rows by 640 columns. -/
def blank_frame : RGBImage :=
  { height := 480, width := 640, fillR := 255, fillG := 255, fillB := 255 }

/-- Body of an emitted multipart chunk: either raw stored bytes from the
ring, or the PIL JPEG encoding of an image (the encoder itself is an
external library, kept symbolic). -/
inductive Payload
  | raw (bytes : Bytes)
  | encodedJpeg (img : RGBImage)
deriving DecidableEq, Repr

/-- ASCII bytes of a string constant. -/
def asciiBytes (s : String) : Bytes := s.toList.map Char.toNat

/-- The multipart boundary header emitted before each frame. -/
def MJPEG_HEADER : Bytes :=
  asciiBytes "--frame\r\nContent-Type: image/jpeg\r\n\r\n"

/-- The trailing CRLF after each frame body. -/
def CRLF : Bytes := [13, 10]

/-- One yielded chunk `b"--frame\r\nContent-Type: image/jpeg\r\n\r\n" +
body + b"\r\n"`. -/
structure Chunk where
  pre : Bytes
  payload : Payload
  post : Bytes
deriving DecidableEq, Repr

/-- Wrap a payload in the multipart boundary format. -/
def mkChunk (p : Payload) : Chunk :=
  { pre := MJPEG_HEADER, payload := p, post := CRLF }

/-- Lines 162-163: `if stream_id not in stream_frames:
stream_frames[stream_id] = deque(maxlen=30)`. -/
def ensureRingEntry (st : SysState) (id : String) : SysState :=
  match dlookup st.stream_frames id with
  | some _ => st
  | none => { st with stream_frames := dinsert st.stream_frames id [] }

/-- The pre-loop part of the generator (lines 162-172): create the ring
entry if missing, and when the ring is empty emit one blank white JPEG
chunk. Returns the emissions together with the updated state. -/
def connectEmissions (st : SysState) (id : String) : List Chunk × SysState :=
  let st2 := ensureRingEntry st id
  if (ringOf st2 id).length = 0 then
    ([mkChunk (Payload.encodedJpeg blank_frame)], st2)
  else ([], st2)

/-- `min_frame_interval = 1.0 / 15` (line 175). -/
def MIN_FRAME_INTERVAL : ℚ := 1 / 15

/-- Seconds slept by the empty-ring poll branch (line 181). -/
def POLL_SLEEP : ℚ := 1 / 10

/-- Time at which the loop body emits, from the wall clock `now` at the rate
check and `last_frame_time` (lines 187-189): sleep the remainder of the
interval when too little time has passed, otherwise emit immediately. -/
def emitTime (now last : ℚ) : ℚ :=
  if now - last < MIN_FRAME_INTERVAL then last + MIN_FRAME_INTERVAL else now

/-- Timed runs of the `while True:` loop (lines 177-193). Each entry of the
schedule gives the ring contents seen under the lock at that iteration and
the wall-clock time at the rate check; the second component of each emission
is the chunk, the first its emission time. `last` is `last_frame_time`,
initialised to `0` at line 174. -/
def loopRun : List (List Bytes × ℚ) → ℚ → List (ℚ × Chunk)
  | [], _ => []
  | (ring, now) :: rest, last =>
    if ring.isEmpty then loopRun rest last
    else
      let t := emitTime now last
      (t, mkChunk (Payload.raw (ring.getLastD []))) :: loopRun rest t

/-- A full timed generator run for one viewer: the connect-time emissions
(stamped with the connect time), then the loop with `last_frame_time = 0`. -/
def genRun (st : SysState) (id : String) (connectTime : ℚ)
    (iters : List (List Bytes × ℚ)) : List (ℚ × Chunk) :=
  ((connectEmissions st id).1.map (fun c => (connectTime, c))) ++ loopRun iters 0

/-- Wall-clock sanity of a loop schedule: each iteration's rate-check time is
at or after the previous emission (`last_frame_time` at that point). -/
def validSched : ℚ → List (List Bytes × ℚ) → Bool
  | _, [] => true
  | last, (ring, now) :: rest =>
    decide (last ≤ now) &&
      validSched (if ring.isEmpty then last else emitTime now last) rest

/-- Every emission in the list comes at least `MIN_FRAME_INTERVAL` after the
reference time, chained along the list. -/
def spacedFrom : ℚ → List (ℚ × Chunk) → Bool
  | _, [] => true
  | t0, (t, _) :: rest => decide (t0 + MIN_FRAME_INTERVAL ≤ t) && spacedFrom t rest

/-- Atomic actions of one loop iteration, for reasoning about what happens
while `stream_lock` is held. -/
inductive GAct
  | lockAcquire
  | lockRelease
  | sleepAct (d : ℚ)
  | readLatest (f : Bytes)
  | emit (c : Chunk)
deriving DecidableEq, Repr

/-- Action trace of one iteration of the loop (lines 177-193). On an empty
ring the body sleeps 0.1 s and `continue`s; the `with` block releases the
lock only when the block exits, i.e. after the sleep. On a non-empty ring the
last frame is read under the lock, the lock is released, the rate-limit sleep
(if needed) happens outside the lock, and the chunk is emitted. -/
def loopIterActions (ring : List Bytes) (now last : ℚ) : List GAct :=
  if ring.isEmpty then
    [GAct.lockAcquire, GAct.sleepAct POLL_SLEEP, GAct.lockRelease]
  else
    [GAct.lockAcquire, GAct.readLatest (ring.getLastD []), GAct.lockRelease] ++
      (if now - last < MIN_FRAME_INTERVAL then
        [GAct.sleepAct (MIN_FRAME_INTERVAL - (now - last))]
      else []) ++
      [GAct.emit (mkChunk (Payload.raw (ring.getLastD [])))]

/-- Does some sleep action occur between a lock acquire and its release? -/
def sleepsUnderLock (acts : List GAct) : Bool :=
  (acts.foldl
    (fun (p : Bool × Bool) a =>
      match a with
      | GAct.lockAcquire => (p.1, true)
      | GAct.lockRelease => (p.1, false)
      | GAct.sleepAct _ => (p.1 || p.2, p.2)
      | _ => p)
    (false, false)).1

/-! ### Event traces over the shared state -/

/-- The operations that touch the shared dictionaries. -/
inductive Event
  | ingestJson (id : String) (frame : String)
  | ingestUpload (id : String) (bytes : Bytes)
  | viewerConnect (id : String)
deriving DecidableEq, Repr

/-- State effect of one event at a given wall-clock time. Each event is one
atomic step, so a trace is a serialized execution: in particular
`viewerConnect` performs the generator's connect prologue (main.py lines
162-163) without interleaving. In the source that prologue runs WITHOUT
`stream_lock`, so a publish can really interleave between its membership
check (line 162) and its dict store (line 163); that finer interleaving is
modelled separately by `connectCheckAbsent` and `connectStoreRing` below. -/
def stepEv (st : SysState) (now : ℚ) (e : Event) : SysState :=
  match e with
  | Event.ingestJson id frame => (receive_stream_frame st id frame now).2
  | Event.ingestUpload id bs => (upload_frame st id bs now).2
  | Event.viewerConnect id => (connectEmissions st id).2

/-- Run a timed event trace from a state. -/
def runEvents : SysState → List (ℚ × Event) → SysState
  | st, [] => st
  | st, (now, e) :: rest => runEvents (stepEv st now e) rest

/-- Does this event publish a frame for `id`? (An ingest whose bytes decode
as an image; failed decodes leave the state untouched.) -/
def storesFrame (e : Event) (id : String) : Bool :=
  match e with
  | Event.ingestJson j frame =>
    j == id &&
      (match b64decode frame with
       | some bs => (pilOpen bs).isSome
       | none => false)
  | Event.ingestUpload j bs => j == id && (pilOpen bs).isSome
  | Event.viewerConnect _ => false

/-- Is this event an ingest call (of either endpoint) for `id`? -/
def isIngestFor (e : Event) (id : String) : Bool :=
  match e with
  | Event.ingestJson j _ => j == id
  | Event.ingestUpload j _ => j == id
  | Event.viewerConnect _ => false

/-- Iterated publish of a frame list onto one stream (the shape of a pure
frame-publishing workload used to state the ring-buffer property). -/
def publishSeq (st : SysState) (id : String) (frames : List Bytes)
    (a : AnalysisResult) (now : ℚ) : SysState :=
  frames.foldl (fun s f => publish s id f a now) st

/-! ### The generator's unlocked connect prologue, split at its race point

`stream_frames_generator` begins with (main.py lines 162-163)

    if stream_id not in stream_frames:
        stream_frames[stream_id] = deque(maxlen=30)

executed WITHOUT holding `stream_lock`, in a threadpool thread running
concurrently with the ingest handlers. The membership test and the dict
store are therefore two separate atomic steps of the concurrent program,
and a locked publish can interleave between them. -/

/-- Line 162, `stream_id not in stream_frames`: the unlocked membership
test of the connect prologue, read as one atomic step. -/
def connectCheckAbsent (st : SysState) (id : String) : Bool :=
  (dlookup st.stream_frames id).isNone

/-- Line 163, `stream_frames[stream_id] = deque(maxlen=30)`: the unlocked
dict store of a fresh empty deque, performed by a viewer thread whose
earlier `connectCheckAbsent` saw the id absent. It overwrites whatever ring
the key holds by the time the thread resumes. -/
def connectStoreRing (st : SysState) (id : String) : SysState :=
  { st with stream_frames := dinsert st.stream_frames id [] }

/-! ### Dictionary lemmas -/

/-- Assignment followed by lookup of the same key yields the new value. -/
theorem dlookup_dinsert_self {β : Type} (m : List (String × β)) (k : String)
    (v : β) : dlookup (dinsert m k v) k = some v := by
  simp [dlookup, dinsert, List.find?_cons_of_pos]

/-- Filtering out one key does not change lookups of other keys. -/
theorem find?_filter_ne {β : Type} (m : List (String × β)) (k k' : String)
    (h : k' ≠ k) :
    (m.filter (fun p => p.1 != k)).find? (fun p => p.1 == k') =
      m.find? (fun p => p.1 == k') := by
  induction m with
  | nil => rfl
  | cons q rest ih =>
    by_cases hq : q.1 = k'
    · have hk : (fun p => p.1 != k) q = true := by simp [hq, h]
      have hf : (fun p => p.1 == k') q = true := by simp [hq]
      rw [@List.filter_cons_of_pos _ (fun p => p.1 != k) q rest hk,
        @List.find?_cons_of_pos _ (fun p => p.1 == k') q _ hf,
        @List.find?_cons_of_pos _ (fun p => p.1 == k') q rest hf]
    · have hf : ¬(fun p => p.1 == k') q = true := by simp [hq]
      by_cases hqk : q.1 = k
      · rw [@List.filter_cons_of_neg _ (fun p => p.1 != k) q rest (by simp [hqk]),
          @List.find?_cons_of_neg _ (fun p => p.1 == k') q rest hf, ih]
      · rw [@List.filter_cons_of_pos _ (fun p => p.1 != k) q rest (by simp [hqk]),
          @List.find?_cons_of_neg _ (fun p => p.1 == k') q _ hf,
          @List.find?_cons_of_neg _ (fun p => p.1 == k') q rest hf, ih]

/-- Assignment leaves lookups of other keys unchanged. -/
theorem dlookup_dinsert_ne {β : Type} (m : List (String × β)) (k k' : String)
    (v : β) (h : k' ≠ k) : dlookup (dinsert m k v) k' = dlookup m k' := by
  have hne : ¬((k, v).1 == k') = true := by
    simp only [beq_iff_eq]
    exact fun hh => h hh.symm
  unfold dlookup dinsert
  rw [@List.find?_cons_of_neg _ (fun p => p.1 == k') (k, v) _ hne,
    find?_filter_ne m k k' h]

/-- Assignment keeps association-list keys duplicate-free. -/
theorem nodupKeys_dinsert {β : Type} (m : List (String × β)) (k : String)
    (v : β) (h : (m.map Prod.fst).Nodup) :
    ((dinsert m k v).map Prod.fst).Nodup := by
  simp only [dinsert, List.map_cons, List.nodup_cons]
  refine ⟨?_, ?_⟩
  · intro hmem
    rcases List.mem_map.mp hmem with ⟨p, hp, hpk⟩
    have hfilter := List.of_mem_filter hp
    rw [hpk] at hfilter
    simp at hfilter
  · exact List.Nodup.sublist
      (List.Sublist.map Prod.fst (List.filter_sublist m)) h

/-! ### Ring buffer lemmas -/

/-- `ring_append` in closed form: keep the newest `STREAM_RING_CAP` frames. -/
theorem ring_append_eq_drop (r : List Bytes) (f : Bytes) :
    ring_append r f = (r ++ [f]).drop ((r ++ [f]).length - STREAM_RING_CAP) := by
  show (if STREAM_RING_CAP < (r ++ [f]).length then
      (r ++ [f]).drop ((r ++ [f]).length - STREAM_RING_CAP)
    else (r ++ [f])) = _
  by_cases h : STREAM_RING_CAP < (r ++ [f]).length
  · rw [if_pos h]
  · rw [if_neg h]
    have h0 : (r ++ [f]).length - STREAM_RING_CAP = 0 :=
      Nat.sub_eq_zero_of_le (Nat.le_of_not_lt h)
    rw [h0, List.drop_zero]

/-- Appending to the newest-capacity suffix keeps the newest-capacity
suffix. -/
theorem ring_append_drop (l : List Bytes) (f : Bytes) :
    ring_append (l.drop (l.length - STREAM_RING_CAP)) f =
      (l ++ [f]).drop ((l ++ [f]).length - STREAM_RING_CAP) := by
  rw [ring_append_eq_drop]
  by_cases h : l.length ≤ STREAM_RING_CAP
  · have h0 : l.length - STREAM_RING_CAP = 0 := Nat.sub_eq_zero_of_le h
    rw [h0, List.drop_zero]
  · have hlt : STREAM_RING_CAP < l.length := Nat.lt_of_not_le h
    have hcap : STREAM_RING_CAP = 30 := rfl
    have hlen : (l.drop (l.length - STREAM_RING_CAP)).length = STREAM_RING_CAP := by
      rw [List.length_drop]
      omega
    have hlen2 : ((l.drop (l.length - STREAM_RING_CAP)) ++ [f]).length -
        STREAM_RING_CAP = 1 := by
      rw [List.length_append, hlen]
      simp
    rw [hlen2]
    have h1 : (1 : ℕ) ≤ (l.drop (l.length - STREAM_RING_CAP)).length := by
      rw [hlen, hcap]
      omega
    rw [List.drop_append_of_le_length h1, List.drop_drop]
    have h2 : (l ++ [f]).length - STREAM_RING_CAP = l.length + 1 - STREAM_RING_CAP := by
      simp
    rw [h2]
    have h3 : l.length + 1 - STREAM_RING_CAP ≤ l.length := by omega
    rw [List.drop_append_of_le_length h3]
    have h4 : l.length - STREAM_RING_CAP + 1 = l.length + 1 - STREAM_RING_CAP := by
      omega
    rw [h4]

/-- Folding `ring_append` over a frame list keeps the newest-capacity
suffix of everything appended so far. -/
theorem foldl_ring_append (fs : List Bytes) :
    ∀ l : List Bytes,
      fs.foldl ring_append (l.drop (l.length - STREAM_RING_CAP)) =
        (l ++ fs).drop ((l ++ fs).length - STREAM_RING_CAP) := by
  induction fs with
  | nil => intro l; simp
  | cons f fs ih =>
    intro l
    rw [List.foldl_cons, ring_append_drop, ih (l ++ [f])]
    simp

/-- Publishing appends to the published stream's own ring. -/
theorem ringOf_publish_self (st : SysState) (id : String) (bs : Bytes)
    (a : AnalysisResult) (now : ℚ) :
    ringOf (publish st id bs a now) id = ring_append (ringOf st id) bs := by
  simp [ringOf, publish, dlookup_dinsert_self]

/-- A publishing workload folds `ring_append` over the frames. -/
theorem ringOf_publishSeq (fs : List Bytes) :
    ∀ (st : SysState) (id : String) (a : AnalysisResult) (now : ℚ),
      ringOf (publishSeq st id fs a now) id =
        fs.foldl ring_append (ringOf st id) := by
  induction fs with
  | nil => intro st id a now; rfl
  | cons f fs ih =>
    intro st id a now
    have hstep : publishSeq st id (f :: fs) a now =
        publishSeq (publish st id f a now) id fs a now := rfl
    rw [hstep, ih, ringOf_publish_self, List.foldl_cons]

/-! ### Endpoint state computation lemmas -/

/-- JSON ingest with undecodable base64: HTTP 400, state untouched. -/
theorem receive_badb64 (st : SysState) (j frame : String) (now : ℚ)
    (hb : b64decode frame = none) :
    receive_stream_frame st j frame now =
      (IngestResult.badRequest "Invalid image data", st) := by
  unfold receive_stream_frame
  rw [hb]

/-- JSON ingest whose bytes are not an image: soft "received", state
untouched. -/
theorem receive_softfail (st : SysState) (j frame : String) (now : ℚ)
    (bs : Bytes) (hb : b64decode frame = some bs) (hp : pilOpen bs = none) :
    receive_stream_frame st j frame now = (IngestResult.received, st) := by
  unfold receive_stream_frame
  rw [hb]
  show (match pilOpen bs with
    | none => (IngestResult.received, st)
    | some img =>
      (IngestResult.received, publish st j bs (deepface_analyze img now) now)) = _
  rw [hp]

/-- JSON ingest of a decodable image: "received" and publish. -/
theorem receive_ok (st : SysState) (j frame : String) (now : ℚ)
    (bs : Bytes) (img : PixImage) (hb : b64decode frame = some bs)
    (hp : pilOpen bs = some img) :
    receive_stream_frame st j frame now =
      (IngestResult.received, publish st j bs (deepface_analyze img now) now) := by
  unfold receive_stream_frame
  rw [hb]
  show (match pilOpen bs with
    | none => (IngestResult.received, st)
    | some img =>
      (IngestResult.received, publish st j bs (deepface_analyze img now) now)) = _
  rw [hp]

/-- Upload ingest whose bytes are not an image: soft failure answer, state
untouched. -/
theorem upload_softfail (st : SysState) (j : String) (bs : Bytes) (now : ℚ)
    (hp : pilOpen bs = none) :
    upload_frame st j bs now =
      (UploadResult.receivedFailed "cannot identify image file", st) := by
  unfold upload_frame
  rw [hp]

/-- Upload ingest of a decodable image: success answer and publish. -/
theorem upload_ok (st : SysState) (j : String) (bs : Bytes) (now : ℚ)
    (img : PixImage) (hp : pilOpen bs = some img) :
    upload_frame st j bs now =
      (UploadResult.receivedSuccess,
        publish st j bs (deepface_analyze img now) now) := by
  unfold upload_frame
  rw [hp]

/-! ### Trace lemmas -/

/-- Appending to a ring never yields the empty ring. -/
theorem ring_append_ne_nil (r : List Bytes) (f : Bytes) :
    ring_append r f ≠ [] := by
  rw [ring_append_eq_drop]
  intro hc
  have hlen := congrArg List.length hc
  rw [List.length_drop, List.length_append] at hlen
  have hcap : STREAM_RING_CAP = 30 := rfl
  rw [hcap] at hlen
  simp at hlen
  omega

/-- The state after viewer connect is exactly `ensureRingEntry`. -/
theorem connectEmissions_state (st : SysState) (j : String) :
    (connectEmissions st j).2 = ensureRingEntry st j := by
  show (if (ringOf (ensureRingEntry st j) j).length = 0 then
      ([mkChunk (Payload.encodedJpeg blank_frame)], ensureRingEntry st j)
    else ([], ensureRingEntry st j)).2 = ensureRingEntry st j
  split <;> rfl

/-- Viewer connect only ever touches `stream_frames`. -/
theorem active_connect (st : SysState) (j : String) :
    (connectEmissions st j).2.active_streams = st.active_streams := by
  rw [connectEmissions_state]
  unfold ensureRingEntry
  cases dlookup st.stream_frames j <;> rfl

/-- Creating a missing (empty) ring entry never changes what `ringOf`
reads, for any stream. -/
theorem ringOf_ensureRingEntry (st : SysState) (j id : String) :
    ringOf (ensureRingEntry st j) id = ringOf st id := by
  unfold ensureRingEntry
  cases hl : dlookup st.stream_frames j with
  | some r => rfl
  | none =>
    by_cases hj : id = j
    · subst hj
      simp [ringOf, dlookup_dinsert_self, hl]
    · simp [ringOf, dlookup_dinsert_ne _ _ _ _ hj]

/-- Whether an `active_streams` entry exists after one event: a storing
ingest creates it, everything else leaves existence unchanged. -/
theorem active_isSome_stepEv (st : SysState) (now : ℚ) (e : Event)
    (id : String) :
    (dlookup (stepEv st now e).active_streams id).isSome =
      (storesFrame e id || (dlookup st.active_streams id).isSome) := by
  cases e with
  | ingestJson j frame =>
    cases hb : b64decode frame with
    | none =>
      have h1 : stepEv st now (Event.ingestJson j frame) = st := by
        show (receive_stream_frame st j frame now).2 = st
        rw [receive_badb64 st j frame now hb]
      rw [h1]
      simp [storesFrame, hb]
    | some bs =>
      cases hp : pilOpen bs with
      | none =>
        have h1 : stepEv st now (Event.ingestJson j frame) = st := by
          show (receive_stream_frame st j frame now).2 = st
          rw [receive_softfail st j frame now bs hb hp]
        rw [h1]
        simp [storesFrame, hb, hp]
      | some img =>
        have h1 : stepEv st now (Event.ingestJson j frame) =
            publish st j bs (deepface_analyze img now) now := by
          show (receive_stream_frame st j frame now).2 = _
          rw [receive_ok st j frame now bs img hb hp]
        rw [h1]
        by_cases hj : j = id
        · subst hj
          simp [storesFrame, hb, hp, publish, dlookup_dinsert_self]
        · have hne : id ≠ j := fun hh => hj hh.symm
          simp [storesFrame, hb, hp, hj, publish,
            dlookup_dinsert_ne _ _ _ _ hne]
  | ingestUpload j bs =>
    cases hp : pilOpen bs with
    | none =>
      have h1 : stepEv st now (Event.ingestUpload j bs) = st := by
        show (upload_frame st j bs now).2 = st
        rw [upload_softfail st j bs now hp]
      rw [h1]
      simp [storesFrame, hp]
    | some img =>
      have h1 : stepEv st now (Event.ingestUpload j bs) =
          publish st j bs (deepface_analyze img now) now := by
        show (upload_frame st j bs now).2 = _
        rw [upload_ok st j bs now img hp]
      rw [h1]
      by_cases hj : j = id
      · subst hj
        simp [storesFrame, hp, publish, dlookup_dinsert_self]
      · have hne : id ≠ j := fun hh => hj hh.symm
        simp [storesFrame, hp, hj, publish, dlookup_dinsert_ne _ _ _ _ hne]
  | viewerConnect j =>
    show (dlookup (connectEmissions st j).2.active_streams id).isSome = _
    rw [active_connect]
    simp [storesFrame]

/-- Entry existence over a whole trace: some event must store a frame. -/
theorem active_isSome_runEvents (tr : List (ℚ × Event)) :
    ∀ (st : SysState) (id : String),
      (dlookup (runEvents st tr).active_streams id).isSome =
        (tr.any (fun p => storesFrame p.2 id) ||
          (dlookup st.active_streams id).isSome) := by
  induction tr with
  | nil => intro st id; simp [runEvents]
  | cons p rest ih =>
    intro st id
    obtain ⟨now, e⟩ := p
    show (dlookup (runEvents (stepEv st now e) rest).active_streams id).isSome = _
    rw [ih, active_isSome_stepEv]
    simp only [List.any_cons]
    cases storesFrame e id <;> simp

/-- One event either leaves a stream's ring alone (and then it was not a
storing ingest for that stream) or appends one frame to it. -/
theorem ringOf_stepEv_cases (st : SysState) (now : ℚ) (e : Event)
    (id : String) :
    (storesFrame e id = false ∧ ringOf (stepEv st now e) id = ringOf st id) ∨
    (storesFrame e id = true ∧
      ∃ bs, ringOf (stepEv st now e) id = ring_append (ringOf st id) bs) := by
  cases e with
  | ingestJson j frame =>
    cases hb : b64decode frame with
    | none =>
      refine Or.inl ⟨by simp [storesFrame, hb], ?_⟩
      have h1 : stepEv st now (Event.ingestJson j frame) = st := by
        show (receive_stream_frame st j frame now).2 = st
        rw [receive_badb64 st j frame now hb]
      rw [h1]
    | some bs =>
      cases hp : pilOpen bs with
      | none =>
        refine Or.inl ⟨by simp [storesFrame, hb, hp], ?_⟩
        have h1 : stepEv st now (Event.ingestJson j frame) = st := by
          show (receive_stream_frame st j frame now).2 = st
          rw [receive_softfail st j frame now bs hb hp]
        rw [h1]
      | some img =>
        have h1 : stepEv st now (Event.ingestJson j frame) =
            publish st j bs (deepface_analyze img now) now := by
          show (receive_stream_frame st j frame now).2 = _
          rw [receive_ok st j frame now bs img hb hp]
        by_cases hj : j = id
        · subst hj
          refine Or.inr ⟨by simp [storesFrame, hb, hp], bs, ?_⟩
          rw [h1, ringOf_publish_self]
        · have hne : id ≠ j := fun hh => hj hh.symm
          refine Or.inl ⟨by simp [storesFrame, hj], ?_⟩
          rw [h1]
          simp [publish, ringOf, dlookup_dinsert_ne _ _ _ _ hne]
  | ingestUpload j bs =>
    cases hp : pilOpen bs with
    | none =>
      refine Or.inl ⟨by simp [storesFrame, hp], ?_⟩
      have h1 : stepEv st now (Event.ingestUpload j bs) = st := by
        show (upload_frame st j bs now).2 = st
        rw [upload_softfail st j bs now hp]
      rw [h1]
    | some img =>
      have h1 : stepEv st now (Event.ingestUpload j bs) =
          publish st j bs (deepface_analyze img now) now := by
        show (upload_frame st j bs now).2 = _
        rw [upload_ok st j bs now img hp]
      by_cases hj : j = id
      · subst hj
        refine Or.inr ⟨by simp [storesFrame, hp], bs, ?_⟩
        rw [h1, ringOf_publish_self]
      · have hne : id ≠ j := fun hh => hj hh.symm
        refine Or.inl ⟨by simp [storesFrame, hj], ?_⟩
        rw [h1]
        simp [publish, ringOf, dlookup_dinsert_ne _ _ _ _ hne]
  | viewerConnect j =>
    refine Or.inl ⟨rfl, ?_⟩
    show ringOf (connectEmissions st j).2 id = ringOf st id
    rw [connectEmissions_state, ringOf_ensureRingEntry]

/-- A trace without ingest calls for a stream leaves its ring unchanged. -/
theorem ringOf_runEvents_no_ingest (tr : List (ℚ × Event)) :
    ∀ (st : SysState) (id : String),
      (∀ p ∈ tr, isIngestFor p.2 id = false) →
      ringOf (runEvents st tr) id = ringOf st id := by
  induction tr with
  | nil => intro st id _; rfl
  | cons p rest ih =>
    intro st id h
    obtain ⟨now, e⟩ := p
    show ringOf (runEvents (stepEv st now e) rest) id = ringOf st id
    rw [ih (stepEv st now e) id (fun q hq => h q (List.mem_cons_of_mem _ hq))]
    have hstep : isIngestFor e id = false := h (now, e) (List.mem_cons_self _ _)
    rcases ringOf_stepEv_cases st now e id with ⟨_, heq⟩ | ⟨hs, _⟩
    · exact heq
    · exfalso
      cases e with
      | ingestJson j frame =>
        have : (j == id) = false := by
          simpa [isIngestFor] using hstep
        simp [storesFrame, this] at hs
      | ingestUpload j bs =>
        have : (j == id) = false := by
          simpa [isIngestFor] using hstep
        simp [storesFrame, this] at hs
      | viewerConnect j => simp [storesFrame] at hs

/-- `active_streams` keys stay duplicate-free along any trace. -/
theorem nodup_active_stepEv (st : SysState) (now : ℚ) (e : Event)
    (h : (st.active_streams.map Prod.fst).Nodup) :
    ((stepEv st now e).active_streams.map Prod.fst).Nodup := by
  cases e with
  | ingestJson j frame =>
    cases hb : b64decode frame with
    | none =>
      have h1 : stepEv st now (Event.ingestJson j frame) = st := by
        show (receive_stream_frame st j frame now).2 = st
        rw [receive_badb64 st j frame now hb]
      rw [h1]; exact h
    | some bs =>
      cases hp : pilOpen bs with
      | none =>
        have h1 : stepEv st now (Event.ingestJson j frame) = st := by
          show (receive_stream_frame st j frame now).2 = st
          rw [receive_softfail st j frame now bs hb hp]
        rw [h1]; exact h
      | some img =>
        have h1 : stepEv st now (Event.ingestJson j frame) =
            publish st j bs (deepface_analyze img now) now := by
          show (receive_stream_frame st j frame now).2 = _
          rw [receive_ok st j frame now bs img hb hp]
        rw [h1]
        exact nodupKeys_dinsert _ _ _ h
  | ingestUpload j bs =>
    cases hp : pilOpen bs with
    | none =>
      have h1 : stepEv st now (Event.ingestUpload j bs) = st := by
        show (upload_frame st j bs now).2 = st
        rw [upload_softfail st j bs now hp]
      rw [h1]; exact h
    | some img =>
      have h1 : stepEv st now (Event.ingestUpload j bs) =
          publish st j bs (deepface_analyze img now) now := by
        show (upload_frame st j bs now).2 = _
        rw [upload_ok st j bs now img hp]
      rw [h1]
      exact nodupKeys_dinsert _ _ _ h
  | viewerConnect j =>
    show (((connectEmissions st j).2.active_streams).map Prod.fst).Nodup
    rw [active_connect]
    exact h

/-- Run form of `nodup_active_stepEv`. -/
theorem nodup_active_runEvents (tr : List (ℚ × Event)) :
    ∀ st : SysState, (st.active_streams.map Prod.fst).Nodup →
      ((runEvents st tr).active_streams.map Prod.fst).Nodup := by
  induction tr with
  | nil => intro st h; exact h
  | cons p rest ih =>
    intro st h
    obtain ⟨now, e⟩ := p
    exact ih (stepEv st now e) (nodup_active_stepEv st now e h)

/-- The central invariant behind C10: every stream listed in
`active_streams` has a non-empty ring. -/
theorem activeHasFrames_runEvents (tr : List (ℚ × Event)) :
    ∀ st : SysState,
      (∀ id, (dlookup st.active_streams id).isSome = true → ringOf st id ≠ []) →
      ∀ id, (dlookup (runEvents st tr).active_streams id).isSome = true →
        ringOf (runEvents st tr) id ≠ [] := by
  induction tr with
  | nil => intro st h; exact h
  | cons p rest ih =>
    intro st h
    obtain ⟨now, e⟩ := p
    refine ih (stepEv st now e) ?_
    intro id hid
    rcases ringOf_stepEv_cases st now e id with ⟨hs, heq⟩ | ⟨_, bs, heq⟩
    · rw [heq]
      rw [active_isSome_stepEv, hs] at hid
      exact h id (by simpa using hid)
    · rw [heq]
      exact ring_append_ne_nil _ _

/-- Helper: the listing of streams none of which is `id` has no entry for
`id`. -/
theorem listActive_find_absent (now : ℚ) (id : String) :
    ∀ m : List (String × StreamData), (∀ p ∈ m, p.1 ≠ id) →
      (m.filterMap (fun p =>
        if now - p.2.last_frame < 30 then
          some (p.1, p.2.last_frame, now - p.2.last_frame) else none)).find?
            (fun p => p.1 == id) = none := by
  intro m
  induction m with
  | nil => intro _; rfl
  | cons q tail ih =>
    intro h
    have hq1 : (q.1 == id) = false := by
      simp only [beq_eq_false_iff_ne, ne_eq]
      exact h q (List.mem_cons_self _ _)
    have htail := ih (fun p hp => h p (List.mem_cons_of_mem _ hp))
    by_cases hlt : now - q.2.last_frame < 30
    · simp only [List.filterMap_cons, if_pos hlt, List.find?_cons, hq1]
      exact htail
    · simp only [List.filterMap_cons, if_neg hlt]
      exact htail

/-- Lookup characterization of `list_active_streams` on duplicate-free
states: a stream appears exactly when it is known and fresh, carrying its
`last_frame` and age. -/
theorem listActive_lookup (st : SysState) (now : ℚ) (id : String)
    (hnd : (st.active_streams.map Prod.fst).Nodup) :
    dlookup (list_active_streams st now) id =
      (dlookup st.active_streams id).bind
        (fun d => if now - d.last_frame < 30 then
          some (d.last_frame, now - d.last_frame) else none) := by
  unfold list_active_streams dlookup
  obtain ⟨acs, sfs⟩ := st
  simp only
  induction acs with
  | nil => rfl
  | cons q tail ih =>
    rw [List.map_cons, List.nodup_cons] at hnd
    by_cases hk : q.1 = id
    · have hq1 : (q.1 == id) = true := by simp [hk]
      have habs : (tail.filterMap (fun p =>
          if now - p.2.last_frame < 30 then
            some (p.1, p.2.last_frame, now - p.2.last_frame) else none)).find?
              (fun p => p.1 == id) = none := by
        apply listActive_find_absent
        intro p hp hpid
        exact hnd.1 (by rw [← hk] at hpid; rw [← hpid]; exact List.mem_map_of_mem _ hp)
      by_cases hlt : now - q.2.last_frame < 30
      · simp only [List.filterMap_cons, if_pos hlt, List.find?_cons, hq1,
          cond_true]
        simp [hlt]
      · simp only [List.filterMap_cons, if_neg hlt, List.find?_cons, hq1,
          cond_true, habs]
        simp [hlt]
    · have hq1 : (q.1 == id) = false := by simp [hk]
      have ih2 := ih hnd.2
      by_cases hlt : now - q.2.last_frame < 30
      · simp only [List.filterMap_cons, if_pos hlt, List.find?_cons, hq1,
          cond_false] at *
        exact ih2
      · simp only [List.filterMap_cons, if_neg hlt, List.find?_cons, hq1,
          cond_false] at *
        exact ih2

/-! ### Claim theorems -/

/-- **C1 counterexample.** The claim states that when base64 decoding
succeeds but the bytes do not decode as an image, the raw frame bytes are
still appended to the ring. In the code the append lives inside the inner
`try:`, so a decode failure skips it: ingesting the base64 of the plain
text "not a jpeg" answers "received" yet leaves the state — in particular
the stream's ring — completely unchanged (the frame is NOT stored). -/
theorem analysis_failure_not_appended_cex :
    (receive_stream_frame initState "cam1" "bm90IGEganBlZw==" 100).1 =
      IngestResult.received ∧
    (receive_stream_frame initState "cam1" "bm90IGEganBlZw==" 100).2 =
      initState ∧
    ringOf (receive_stream_frame initState "cam1" "bm90IGEganBlZw==" 100).2
      "cam1" = [] := by
  refine ⟨?_, ?_, ?_⟩ <;> decide

/-- **C1 (amended).** When transport decoding succeeds but image decoding
fails, both ingest endpoints report only a soft outcome (never a hard
error), but contrary to the original claim the raw bytes are NOT appended:
the stream state is left completely unchanged. -/
theorem analysis_failure_soft_but_not_stored (st : SysState)
    (id frame : String) (bs : Bytes) (now : ℚ)
    (hb : b64decode frame = some bs) (hp : pilOpen bs = none) :
    receive_stream_frame st id frame now = (IngestResult.received, st) ∧
    upload_frame st id bs now =
      (UploadResult.receivedFailed "cannot identify image file", st) ∧
    ringOf (receive_stream_frame st id frame now).2 id = ringOf st id := by
  refine ⟨receive_softfail st id frame now bs hb hp,
    upload_softfail st id bs now hp, ?_⟩
  rw [receive_softfail st id frame now bs hb hp]

/-- Witness for C1 (amended) at the concrete corrupt payload. -/
theorem analysis_failure_soft_but_not_stored_witness :
    b64decode "bm90IGEganBlZw==" = some (asciiBytes "not a jpeg") ∧
    pilOpen (asciiBytes "not a jpeg") = none ∧
    receive_stream_frame initState "w1" "bm90IGEganBlZw==" 3 =
      (IngestResult.received, initState) :=
  ⟨by decide, by decide,
    (analysis_failure_soft_but_not_stored initState "w1" "bm90IGEganBlZw=="
      (asciiBytes "not a jpeg") 3 (by decide) (by decide)).1⟩

/-- **C2.** Over any publishing workload on one stream the ring never
exceeds 30 frames, and once more than 30 frames were published it holds
exactly the most recent 30 in arrival order (oldest evicted first). -/
theorem ring_capacity_fifo (id : String) (a : AnalysisResult) (now : ℚ)
    (fs : List Bytes) :
    (ringOf (publishSeq initState id fs a now) id).length ≤ STREAM_RING_CAP ∧
    (STREAM_RING_CAP < fs.length →
      ringOf (publishSeq initState id fs a now) id =
        fs.drop (fs.length - STREAM_RING_CAP)) := by
  have h0 : ringOf initState id =
      ([] : List Bytes).drop (([] : List Bytes).length - STREAM_RING_CAP) := rfl
  have hm : ringOf (publishSeq initState id fs a now) id =
      fs.drop (fs.length - STREAM_RING_CAP) := by
    rw [ringOf_publishSeq, h0, foldl_ring_append]
    simp
  refine ⟨?_, fun _ => hm⟩
  rw [hm, List.length_drop]
  have hcap : STREAM_RING_CAP = 30 := rfl
  omega

/-- Witness for C2 with 31 concrete frames. -/
theorem ring_capacity_fifo_witness :
    STREAM_RING_CAP < ((List.range 31).map (fun n => [n])).length ∧
    ringOf (publishSeq initState "cam2" ((List.range 31).map (fun n => [n]))
        (deepface_analyze ⟨[]⟩ 0) 0) "cam2" =
      ((List.range 31).map (fun n => [n])).drop
        (((List.range 31).map (fun n => [n])).length - STREAM_RING_CAP) :=
  ⟨by decide,
    (ring_capacity_fifo "cam2" (deepface_analyze ⟨[]⟩ 0) 0
      ((List.range 31).map (fun n => [n]))).2 (by decide)⟩

/-- **C3 counterexample.** The claim states that no operation other than
ingest creates per-stream state. But a viewer connecting to the MJPEG
generator for a never-ingested StreamID creates a `stream_frames` entry
(main.py lines 162-163): after one `viewerConnect` for "cam3" — which is
not an ingest — the frame mapping holds an (empty) entry for "cam3". -/
theorem viewer_creates_entry_cex :
    dlookup initState.stream_frames "cam3" = none ∧
    isIngestFor (Event.viewerConnect "cam3") "cam3" = false ∧
    dlookup (stepEv initState 0 (Event.viewerConnect "cam3")).stream_frames
      "cam3" = some [] := by
  refine ⟨?_, ?_, ?_⟩ <;> decide

/-- **C3 (amended).** The if-and-only-if does hold for the
liveness/analysis mapping `active_streams`: an entry exists exactly when
some ingest successfully stored a frame; the frame-ring mapping
`stream_frames`, however, can additionally gain an empty entry from a
viewer connect. -/
theorem active_entry_iff_stored (tr : List (ℚ × Event)) (id : String) :
    (dlookup (runEvents initState tr).active_streams id).isSome = true ↔
      ∃ p ∈ tr, storesFrame p.2 id = true := by
  rw [active_isSome_runEvents]
  have h0 : (dlookup initState.active_streams id).isSome = false := rfl
  rw [h0, Bool.or_false, List.any_eq_true]

/-- Witness for C3 (amended): a stored upload creates the entry. -/
theorem active_entry_iff_stored_witness :
    (dlookup (runEvents initState
      [((5 : ℚ), Event.ingestUpload "cam3w" [255, 216, 255, 9])]).active_streams
      "cam3w").isSome = true :=
  (active_entry_iff_stored
      [((5 : ℚ), Event.ingestUpload "cam3w" [255, 216, 255, 9])] "cam3w").mpr
    ⟨((5 : ℚ), Event.ingestUpload "cam3w" [255, 216, 255, 9]),
      by decide, by decide⟩

/-- **C4 counterexample.** The claim includes the empty base64 string among
payloads rejected as InvalidPayload. But Python's `b64decode("")` succeeds
(yielding zero bytes), so the code takes the soft path: the call answers
"received" — not a rejection — with the state unchanged. -/
theorem empty_b64_received_cex :
    receive_stream_frame initState "cam4" "" 5 =
      (IngestResult.received, initState) := by
  decide

/-- **C4 (amended).** On the JSON path, a payload whose base64 decoding
fails (malformed, e.g. wrong length after discarding foreign characters) is
rejected with HTTP 400 and the state is untouched; a payload that decodes
(including the empty string, which decodes to empty bytes) but is not a
valid image gets a "received" acknowledgement with the state untouched. -/
theorem json_reject_vs_soft (st : SysState) (id frame : String) (now : ℚ) :
    (b64decode frame = none →
      receive_stream_frame st id frame now =
        (IngestResult.badRequest "Invalid image data", st)) ∧
    (∀ bs, b64decode frame = some bs → pilOpen bs = none →
      receive_stream_frame st id frame now = (IngestResult.received, st)) :=
  ⟨fun hb => receive_badb64 st id frame now hb,
   fun bs hb hp => receive_softfail st id frame now bs hb hp⟩

/-- Witness for C4 (amended): "not-base64!!" is rejected, "" is soft. -/
theorem json_reject_vs_soft_witness :
    b64decode "not-base64!!" = none ∧
    receive_stream_frame initState "cam4w" "not-base64!!" 2 =
      (IngestResult.badRequest "Invalid image data", initState) ∧
    b64decode "" = some [] ∧
    pilOpen [] = none ∧
    receive_stream_frame initState "cam4w" "" 2 =
      (IngestResult.received, initState) :=
  ⟨by decide,
    (json_reject_vs_soft initState "cam4w" "not-base64!!" 2).1 (by decide),
    by decide, by decide,
    (json_reject_vs_soft initState "cam4w" "" 2).2 [] (by decide) (by decide)⟩

/-- **C5.** `get_stream_feed` answers 404 exactly when no ingest ever
stored a frame for the StreamID, and when an entry exists it returns the
stored analysis regardless of the query time — even 30 seconds or more
after the last frame, when `list_active_streams` already excludes the
stream (the liveness filter is not applied). -/
theorem getAnalysis_no_liveness_filter (tr : List (ℚ × Event)) (id : String) :
    (get_stream_feed (runEvents initState tr) id = FeedResult.notFound ↔
      ¬ ∃ p ∈ tr, storesFrame p.2 id = true) ∧
    (∀ d now, dlookup (runEvents initState tr).active_streams id = some d →
      30 ≤ now - d.last_frame →
      get_stream_feed (runEvents initState tr) id =
        FeedResult.analysis d.analysis ∧
      dlookup (list_active_streams (runEvents initState tr) now) id = none) := by
  have hA : (dlookup (runEvents initState tr).active_streams id).isSome =
      tr.any (fun p => storesFrame p.2 id) := by
    rw [active_isSome_runEvents]
    have h0 : (dlookup initState.active_streams id).isSome = false := rfl
    rw [h0, Bool.or_false]
  constructor
  · unfold get_stream_feed
    cases hl : dlookup (runEvents initState tr).active_streams id with
    | none =>
      rw [hl] at hA
      constructor
      · intro _ hex
        have hany : tr.any (fun p => storesFrame p.2 id) = true :=
          List.any_eq_true.mpr hex
        rw [← hA] at hany
        simp at hany
      · intro _; rfl
    | some d =>
      rw [hl] at hA
      constructor
      · intro hc
        exact absurd hc (by simp)
      · intro hno
        exfalso
        apply hno
        apply List.any_eq_true.mp
        rw [← hA]
        rfl
  · intro d now hl h30
    constructor
    · unfold get_stream_feed
      rw [hl]
    · rw [listActive_lookup _ _ _
        (nodup_active_runEvents tr initState (by simp [initState])), hl]
      have hnl : ¬(now - d.last_frame < 30) := not_lt.mpr h30
      simp [hnl]

/-- Witness for C5: a stream last seen at t=0 queried at t=1000. -/
theorem getAnalysis_no_liveness_filter_witness :
    get_stream_feed (runEvents initState
        [((0 : ℚ), Event.ingestUpload "cam5" [255, 216, 255, 7])]) "cam5" =
      FeedResult.analysis (deepface_analyze ⟨[255, 216, 255, 7]⟩ 0) ∧
    dlookup (list_active_streams (runEvents initState
        [((0 : ℚ), Event.ingestUpload "cam5" [255, 216, 255, 7])]) 1000)
      "cam5" = none :=
  (getAnalysis_no_liveness_filter
      [((0 : ℚ), Event.ingestUpload "cam5" [255, 216, 255, 7])] "cam5").2
    { last_frame := 0, analysis := deepface_analyze ⟨[255, 216, 255, 7]⟩ 0 }
    1000 rfl (by norm_num)

/-- **C6.** For every query time, `list_active_streams` contains exactly the
known streams whose last frame is strictly less than 30 seconds old, and for
each one reports `last_frame` together with `active_since = now -
last_frame`; streams at or beyond 30 seconds are excluded. -/
theorem listActive_exact (st : SysState) (now : ℚ) (id : String)
    (hnd : (st.active_streams.map Prod.fst).Nodup) :
    (dlookup (list_active_streams st now) id =
      (dlookup st.active_streams id).bind
        (fun d => if now - d.last_frame < 30 then
          some (d.last_frame, now - d.last_frame) else none)) ∧
    (∀ d, dlookup st.active_streams id = some d → now - d.last_frame < 30 →
      dlookup (list_active_streams st now) id =
        some (d.last_frame, now - d.last_frame)) ∧
    (∀ d, dlookup st.active_streams id = some d → 30 ≤ now - d.last_frame →
      dlookup (list_active_streams st now) id = none) := by
  refine ⟨listActive_lookup st now id hnd, ?_, ?_⟩
  · intro d hd hlt
    rw [listActive_lookup st now id hnd, hd]
    simp [hlt]
  · intro d hd hge
    rw [listActive_lookup st now id hnd, hd]
    simp [not_lt.mpr hge]

/-- Witness for C6 at the boundary: a stream 29.999 s old is listed with its
age, one 30.001 s old is excluded. -/
theorem listActive_exact_witness :
    dlookup (list_active_streams
      { active_streams :=
          [("fresh", { last_frame := 0, analysis := deepface_analyze ⟨[]⟩ 0 })],
        stream_frames := [] } (29999/1000)) "fresh" =
      some ((0 : ℚ), (29999 : ℚ)/1000 - 0) ∧
    dlookup (list_active_streams
      { active_streams :=
          [("stale", { last_frame := 0, analysis := deepface_analyze ⟨[]⟩ 0 })],
        stream_frames := [] } (30001/1000)) "stale" = none :=
  ⟨(listActive_exact _ (29999/1000) "fresh" (by simp)).2.1
      { last_frame := 0, analysis := deepface_analyze ⟨[]⟩ 0 }
      rfl (by norm_num),
   (listActive_exact _ (30001/1000) "stale" (by simp)).2.2
      { last_frame := 0, analysis := deepface_analyze ⟨[]⟩ 0 }
      rfl (by norm_num)⟩

/-- **C7.** A viewer connecting to a StreamID with zero ingested frames
receives exactly one synthetic chunk — the solid-white 480-row by 640-column
JPEG placeholder wrapped in the multipart boundary format — and the loop
then emits nothing while the ring stays empty. -/
theorem blank_frame_on_fresh_stream (tr : List (ℚ × Event)) (id : String)
    (h : ∀ p ∈ tr, isIngestFor p.2 id = false) :
    (connectEmissions (runEvents initState tr) id).1 =
      [mkChunk (Payload.encodedJpeg blank_frame)] ∧
    blank_frame = ⟨480, 640, 255, 255, 255⟩ ∧
    (mkChunk (Payload.encodedJpeg blank_frame)).pre = MJPEG_HEADER ∧
    (∀ iters : List (List Bytes × ℚ), ∀ last : ℚ,
      (∀ q ∈ iters, q.1 = ([] : List Bytes)) → loopRun iters last = []) := by
  have hring : ringOf (runEvents initState tr) id = [] := by
    rw [ringOf_runEvents_no_ingest tr initState id h]
    rfl
  refine ⟨?_, rfl, rfl, ?_⟩
  · have h2 : ringOf (ensureRingEntry (runEvents initState tr) id) id = [] := by
      rw [ringOf_ensureRingEntry]
      exact hring
    show (if (ringOf (ensureRingEntry (runEvents initState tr) id) id).length = 0
        then ([mkChunk (Payload.encodedJpeg blank_frame)],
          ensureRingEntry (runEvents initState tr) id)
        else ([], ensureRingEntry (runEvents initState tr) id)).1 =
      [mkChunk (Payload.encodedJpeg blank_frame)]
    rw [h2]
    rfl
  · intro iters
    induction iters with
    | nil => intro last _; rfl
    | cons q rest ih =>
      intro last hq
      obtain ⟨ring, tq⟩ := q
      have hr : ring = [] := hq (ring, tq) (List.mem_cons_self _ _)
      subst hr
      show loopRun ((([] : List Bytes), tq) :: rest) last = []
      simp only [loopRun, List.isEmpty_nil, if_true]
      exact ih last (fun p hp => hq p (List.mem_cons_of_mem _ hp))

/-- Witness for C7: a stream that has only ever seen a viewer connect. -/
theorem blank_frame_on_fresh_stream_witness :
    (connectEmissions (runEvents initState
      [((0 : ℚ), Event.viewerConnect "cam7")]) "cam7").1 =
      [mkChunk (Payload.encodedJpeg blank_frame)] :=
  (blank_frame_on_fresh_stream [((0 : ℚ), Event.viewerConnect "cam7")] "cam7"
    (by decide)).1

/-- **C8 counterexample.** The claim says at least 1/15 s elapses between
every pair of consecutive emissions. But `last_frame_time` is initialised to
0 only after the synthetic blank frame is emitted, so the blank frame is
outside the rate limiter: connecting at t=1000 to an empty ring and finding
a frame at t=1000.01 yields two consecutive emissions 0.01 s < 1/15 s
apart. -/
theorem rate_limit_cex :
    genRun initState "cam8" 1000 [([[255, 216, 255, 0]], 100001/100)] =
      [((1000 : ℚ), mkChunk (Payload.encodedJpeg blank_frame)),
       ((100001 : ℚ)/100, mkChunk (Payload.raw [255, 216, 255, 0]))] ∧
    (100001 : ℚ)/100 - 1000 < MIN_FRAME_INTERVAL := by
  constructor
  · show ((connectEmissions initState "cam8").1.map (fun c => ((1000 : ℚ), c)))
        ++ loopRun [([[255, 216, 255, 0]], 100001/100)] 0 = _
    have h1 : (connectEmissions initState "cam8").1 =
        [mkChunk (Payload.encodedJpeg blank_frame)] := rfl
    have h2 : loopRun [([[255, 216, 255, 0]], 100001/100)] 0 =
        [(emitTime ((100001 : ℚ)/100) 0, mkChunk (Payload.raw [255, 216, 255, 0]))] := by
      simp [loopRun]
    have h3 : emitTime ((100001 : ℚ)/100) 0 = (100001 : ℚ)/100 := by
      unfold emitTime MIN_FRAME_INTERVAL
      rw [if_neg]
      norm_num
    rw [h1, h2, h3]
    rfl
  · unfold MIN_FRAME_INTERVAL
    norm_num

/-- **C8 (amended).** Under a sane schedule (each iteration's rate check
happens at or after the previous emission), consecutive emissions of the
`while` loop are at least `MIN_FRAME_INTERVAL` apart — the 15 fps cap holds
for all real-frame emissions; only the initial synthetic blank frame sits
outside the limiter. -/
theorem rate_limit_loop_spacing (iters : List (List Bytes × ℚ)) :
    ∀ last : ℚ, validSched last iters = true →
      spacedFrom last (loopRun iters last) = true := by
  induction iters with
  | nil => intro last _; rfl
  | cons q rest ih =>
    intro last hv
    obtain ⟨ring, now⟩ := q
    have hv' := hv
    simp only [validSched, Bool.and_eq_true, decide_eq_true_eq] at hv'
    obtain ⟨hv1, hv2⟩ := hv'
    by_cases hr : ring.isEmpty
    · simp only [loopRun, hr, if_true]
      rw [hr] at hv2
      simp at hv2
      exact ih last hv2
    · simp only [loopRun, hr, if_false]
      have hb : ring.isEmpty = false := Bool.eq_false_iff.mpr hr
      rw [hb] at hv2
      simp at hv2
      have ht : last + MIN_FRAME_INTERVAL ≤ emitTime now last := by
        unfold emitTime
        by_cases hlt : now - last < MIN_FRAME_INTERVAL
        · rw [if_pos hlt]
        · rw [if_neg hlt]
          have := not_lt.mp hlt
          linarith
      simp only [spacedFrom, Bool.and_eq_true, decide_eq_true_eq]
      exact ⟨ht, ih (emitTime now last) hv2⟩

/-- Witness for C8 (amended) on a concrete two-iteration schedule. -/
theorem rate_limit_loop_spacing_witness :
    validSched 0 [([[1]], (1 : ℚ)), ([[2]], (102 : ℚ)/100)] = true ∧
    spacedFrom 0 (loopRun [([[1]], (1 : ℚ)), ([[2]], (102 : ℚ)/100)] 0) = true :=
  ⟨by norm_num [validSched, emitTime, MIN_FRAME_INTERVAL],
   rate_limit_loop_spacing [([[1]], (1 : ℚ)), ([[2]], (102 : ℚ)/100)] 0
     (by norm_num [validSched, emitTime, MIN_FRAME_INTERVAL])⟩

/-- **C9 counterexample.** The claim says the generator never sleeps while
holding the shared lock. But on an empty ring the body executes
`time.sleep(0.1)` inside the `with stream_lock:` block (the `continue`
releases the lock only after the sleep): the iteration's action trace
contains a sleep between acquire and release. -/
theorem poll_sleep_under_lock_cex :
    loopIterActions [] 0 0 =
      [GAct.lockAcquire, GAct.sleepAct POLL_SLEEP, GAct.lockRelease] ∧
    sleepsUnderLock (loopIterActions [] 0 0) = true := by
  exact ⟨rfl, rfl⟩

/-- **C9 (amended).** On a non-empty ring the loop honours the claim: the
latest frame is copied out under the lock, the lock is released before any
sleeping, the rate-limit sleep happens outside the lock, and the emitted
chunk is exactly the copied frame; the ~100 ms empty-ring poll sleep,
however, does run while the lock is held. -/
theorem lock_discipline_amended (ring : List Bytes) (now last : ℚ)
    (h : ring ≠ []) :
    sleepsUnderLock (loopIterActions ring now last) = false ∧
    GAct.readLatest (ring.getLastD []) ∈ loopIterActions ring now last ∧
    GAct.emit (mkChunk (Payload.raw (ring.getLastD []))) ∈
      loopIterActions ring now last := by
  have hb : ring.isEmpty = false := by
    cases ring with
    | nil => exact absurd rfl h
    | cons a t => rfl
  unfold loopIterActions
  rw [hb]
  by_cases hlt : now - last < MIN_FRAME_INTERVAL
  · simp [hlt, sleepsUnderLock]
  · simp [hlt, sleepsUnderLock]

/-- Witness for C9 (amended) on a one-frame ring. -/
theorem lock_discipline_amended_witness :
    sleepsUnderLock (loopIterActions [[7]] 0 0) = false :=
  (lock_discipline_amended [[7]] 0 0 (by decide)).1

/-- **C10 counterexample.** The claim asserts that at every reachable state
an `active_streams` entry implies a non-empty ring. The generator's connect
prologue, however, runs without `stream_lock` (main.py lines 162-163), so
the program can reach a state violating it: a viewer thread's membership
check finds "cam" absent; the first locked publish for "cam" then creates
the `active_streams` entry and a one-frame ring; the viewer thread resumes
and its dict store overwrites that ring with a fresh empty deque. In the
resulting state `get_stream_feed` succeeds while `latestFrame` yields
nothing — exactly what the claim denies. -/
theorem race_empties_ring_cex :
    connectCheckAbsent initState "cam" = true ∧
    (let st1 := (upload_frame initState "cam" [255, 216, 255, 1] 0).2
     let st2 := connectStoreRing st1 "cam"
     (dlookup st2.active_streams "cam").isSome = true ∧
     ringOf st2 "cam" = [] ∧
     get_stream_feed st2 "cam" ≠ FeedResult.notFound ∧
     latestFrame st2 "cam" = none) := by
  refine ⟨rfl, rfl, rfl, ?_, rfl⟩
  intro hc
  exact FeedResult.noConfusion hc

/-- **C10 (amended).** In executions where the generator's check-then-create
prologue does not interleave with a publish for the same stream — i.e. over
serialized traces in which every operation (in particular `viewerConnect`)
is one atomic step — a stream listed in `active_streams` always has a
non-empty ring in `stream_frames` (the publish block writes timestamp,
analysis and frame together under one lock acquisition, rings never shrink,
and a non-interleaved connect never overwrites a non-empty ring), so
whenever `get_stream_feed` succeeds, `latestFrame` yields a frame. The
unlocked prologue racing a first publish breaks the invariant (see the
counterexample). -/
theorem active_implies_frames (tr : List (ℚ × Event)) (id : String) :
    ((dlookup (runEvents initState tr).active_streams id).isSome = true →
      ringOf (runEvents initState tr) id ≠ []) ∧
    (get_stream_feed (runEvents initState tr) id ≠ FeedResult.notFound →
      (latestFrame (runEvents initState tr) id).isSome = true) := by
  have hbase : ∀ i : String,
      (dlookup initState.active_streams i).isSome = true →
      ringOf initState i ≠ [] := by
    intro i hi
    have h0 : (dlookup initState.active_streams i).isSome = false := rfl
    rw [h0] at hi
    exact absurd hi (by simp)
  have hinv := activeHasFrames_runEvents tr initState hbase id
  refine ⟨hinv, ?_⟩
  intro hfeed
  have hsome : (dlookup (runEvents initState tr).active_streams id).isSome
      = true := by
    unfold get_stream_feed at hfeed
    cases hl : dlookup (runEvents initState tr).active_streams id with
    | none =>
      rw [hl] at hfeed
      exact absurd rfl hfeed
    | some d => rfl
  have hne := hinv hsome
  unfold latestFrame
  rw [List.getLast?_isSome]
  exact hne

/-- Witness for C10 after one stored PNG upload. -/
theorem active_implies_frames_witness :
    ringOf (runEvents initState
      [((1 : ℚ), Event.ingestUpload "cam10" [137, 80, 78, 71])]) "cam10" ≠ [] :=
  (active_implies_frames
      [((1 : ℚ), Event.ingestUpload "cam10" [137, 80, 78, 71])] "cam10").1
    (by decide)
